import Mathlib

/-!
Shallow embedding of the algorithmic core of live-dither-wp (src/main.cpp):
the xorshift RNG, the bilinear resampler with brightness threshold, the
probabilistic classifier, and the per-frame dither engine with its three
strategies (static / random / wave-with-chaos).

C++ `float` arithmetic is modelled exactly over ℚ; `uint32_t` arithmetic is
modelled on ℕ with explicit reduction mod 2^32 at every assignment; `sinf`
is transcendental and enters every decision only through its value at the
wave phase, so it is a function parameter `sinA : ℚ → ℚ` of the model.
-/

namespace LiveDither

/-- Cell classification states, `enum PixelState` of src/main.cpp
(PIXEL_BLACK, PIXEL_ORANGE, PIXEL_AMBIGUOUS). -/
inductive PixelState where
  | black
  | orange
  | ambiguous
deriving DecidableEq, Repr

/-- One 4-byte RGBA slot of the output buffer `g_scaledPixels`. -/
structure RGBA where
  r : ℕ
  g : ℕ
  b : ℕ
  a : ℕ
deriving DecidableEq, Repr

/-- Fixed black color `BLACK_RGBA` of src/main.cpp. -/
def BLACK_RGBA : RGBA := ⟨0, 0, 0, 255⟩

/-- Fixed accent color `ORANGE_RGBA` of src/main.cpp. -/
def ORANGE_RGBA : RGBA := ⟨255, 140, 0, 255⟩

/-- Xorshift step `fastRand` (src/main.cpp lines 137-142); each of the three
`uint32_t` assignments truncates mod 2^32. -/
def fastRand (s : ℕ) : ℕ :=
  let s1 := (s ^^^ s <<< 13) % 2 ^ 32
  let s2 := (s1 ^^^ s1 >>> 17) % 2 ^ 32
  let s3 := (s2 ^^^ s2 <<< 5) % 2 ^ 32
  s3

/-- Model of `fastRandFloat` (src/main.cpp lines 144-146): advance the RNG
state and return `(fastRand() & 0xFFFF) / 65535.0f` with the new state. -/
def fastRandFloatS (s : ℕ) : ℚ × ℕ :=
  let s1 := fastRand s
  (((s1 &&& 65535 : ℕ) : ℚ) / 65535, s1)

/-- Probability that a cell is accent colored (src/main.cpp lines 235-236):
`(totalDist > 0.001f) ? (distBlack / totalDist) : 0.5f`. -/
def orangeProbOf (distBlack distOrange : ℚ) : ℚ :=
  if distBlack + distOrange > 1 / 1000 then distBlack / (distBlack + distOrange)
  else 1 / 2

/-- The classifier partition with thresholds AMBIG_LOW = 0.3 and
AMBIG_HIGH = 0.7 (src/main.cpp lines 238-249). -/
def classifyProb (orangeProb : ℚ) : PixelState :=
  if orangeProb < 3 / 10 then .black
  else if orangeProb > 7 / 10 then .orange
  else .ambiguous

/-- Row-major order in which the classification loops of
`loadAndPrepareImage` (src/main.cpp lines 223-251 and 257-267) visit cells:
`pixIdx = y * scaledWidth + x`, `y` from 0 to H-1 outer, `x` from 0 to W-1
inner. -/
def scanOrder (W H : ℕ) : List ℕ :=
  (List.range H).flatMap fun y => (List.range W).map fun x => y * W + x

/-- Per-cell state array `g_pixelStates`, filled in scan order. The scalar
probability of cell `i` is abstracted as `prob i`; in the source it is
`orangeProbOf` applied to the two Euclidean color distances of the cell,
whose square roots have no exact representation in ℚ. -/
def buildStates (W H : ℕ) (prob : ℕ → ℚ) : List PixelState :=
  (scanOrder W H).map fun i => classifyProb (prob i)

/-- Stored probabilities `g_orangeProb`: written only for ambiguous cells
(src/main.cpp line 247); other entries keep the 0 put there by `resize`. -/
def buildProbs (W H : ℕ) (prob : ℕ → ℚ) : List ℚ :=
  (scanOrder W H).map fun i => if classifyProb (prob i) = .ambiguous then prob i else 0

/-- UncertainIndexList `g_ambiguousIndices`: cell indices appended in scan
order when classified ambiguous (src/main.cpp line 248). -/
def buildAmbiguous (W H : ℕ) (prob : ℕ → ℚ) : List ℕ :=
  (scanOrder W H).filter fun i => classifyProb (prob i) = .ambiguous

/-- Color written at buffer initialization for a state (src/main.cpp lines
261-266): black cells get BLACK_RGBA, everything else ORANGE_RGBA. -/
def stateColor (st : PixelState) : RGBA :=
  if st = .black then BLACK_RGBA else ORANGE_RGBA

/-- Output buffer `g_scaledPixels` right after classification. -/
def initBuffer (states : List PixelState) : List RGBA :=
  states.map stateColor

/-- Color written by the dither engine for a per-cell decision
(src/main.cpp line 315). -/
def cellColor (isOrange : Bool) : RGBA :=
  if isOrange then ORANGE_RGBA else BLACK_RGBA

/-- The four `static` locals of the wave branch of `ditherFrame`
(src/main.cpp lines 291-294); being `static`, they persist across frames. -/
structure WaveCache where
  lastY : ℤ
  cachedSine : ℚ
  cachedChaos : ℚ
  invWidth : ℚ
deriving DecidableEq, Repr

/-- State threaded through one frame's loop over the ambiguous indices:
output buffer, RNG state, wave cache. -/
structure FrameAcc where
  buf : List RGBA
  rng : ℕ
  cache : WaveCache
deriving Repr

/-- Engine state: grid dimensions, classification arrays, output buffer,
animation clock `g_time`, RNG state `g_rngState` and the wave statics. -/
structure Engine where
  scaledWidth : ℕ
  scaledHeight : ℕ
  pixelStates : List PixelState
  orangeProb : List ℚ
  ambiguousIndices : List ℕ
  scaledPixels : List RGBA
  time : ℚ
  rngState : ℕ
  cache : WaveCache
deriving Repr

/-- Per-cell decision of the random strategy (src/main.cpp line 285):
`isOrange = fastRandFloat() < g_orangeProb[pixIdx]`, with the advanced RNG
state. -/
def randomStep (s : ℕ) (prob : ℚ) : Bool × ℕ :=
  let ur := fastRandFloatS s
  (decide (ur.1 < prob), ur.2)

/-- Body of `ditherFrame`'s loop for one ambiguous cell (src/main.cpp lines
279-316). `alg = 1` is the random strategy; every other (nonzero) value
takes the wave branch, exactly as the source's if/else does. -/
def ditherCell (sinA : ℚ → ℚ) (alg chaos W : ℕ) (t : ℚ) (probs : List ℚ)
    (acc : FrameAcc) (pixIdx : ℕ) : FrameAcc :=
  if alg = 1 then
    let d := randomStep acc.rng (probs.getD pixIdx 0)
    { buf := acc.buf.set pixIdx (cellColor d.1), rng := d.2, cache := acc.cache }
  else
    let x : ℕ := pixIdx % W
    let y : ℕ := pixIdx / W
    let c : WaveCache :=
      if (y : ℤ) ≠ acc.cache.lastY then
        { lastY := (y : ℤ)
          cachedSine := sinA ((y : ℚ) * (8 / 10) - t * 2)
          cachedChaos := (chaos : ℚ) / 100
          invWidth := 2 / (W : ℚ) }
      else acc.cache
    let normalizedX : ℚ := (x : ℚ) * c.invWidth - 1
    let waveThreshold : ℚ := probs.getD pixIdx 0 + (normalizedX - c.cachedSine) * (3 / 10)
    if c.cachedChaos > 0 then
      let ur := fastRandFloatS acc.rng
      let randomThreshold : ℚ := probs.getD pixIdx 0 + (ur.1 - 1 / 2) * (4 / 10)
      let wt : ℚ := waveThreshold * (1 - c.cachedChaos) + randomThreshold * c.cachedChaos
      { buf := acc.buf.set pixIdx (cellColor (decide (wt > 1 / 2))), rng := ur.2, cache := c }
    else
      { buf := acc.buf.set pixIdx (cellColor (decide (waveThreshold > 1 / 2))),
        rng := acc.rng, cache := c }

/-- One dither engine frame (src/main.cpp lines 276-319). The static
strategy (`alg = 0`) returns at once, before the clock increment. -/
def ditherFrame (sinA : ℚ → ℚ) (alg chaos : ℕ) (e : Engine) : Engine :=
  if alg = 0 then e
  else
    let acc := e.ambiguousIndices.foldl
      (ditherCell sinA alg chaos e.scaledWidth e.time e.orangeProb)
      ⟨e.scaledPixels, e.rngState, e.cache⟩
    { e with
      scaledPixels := acc.buf
      rngState := acc.rng
      cache := acc.cache
      time := e.time + 16 / 1000 }

/-- Engine state right after `loadAndPrepareImage` succeeded: arrays built
in scan order, buffer initialized, clock 0, RNG at its seed 12345 and the
wave statics at their C++ initializers (-1, 0, 0, 0). -/
def initEngine (W H : ℕ) (prob : ℕ → ℚ) : Engine :=
  { scaledWidth := W
    scaledHeight := H
    pixelStates := buildStates W H prob
    orangeProb := buildProbs W H prob
    ambiguousIndices := buildAmbiguous W H prob
    scaledPixels := initBuffer (buildStates W H prob)
    time := 0
    rngState := 12345
    cache := ⟨-1, 0, 0, 0⟩ }

/-- Fractional source coordinate of the resampler (src/main.cpp lines
182-183): `srcX = (float)sx / g_scaledWidth * origWidth`. -/
def srcCoord (x dstDim srcDim : ℕ) : ℚ :=
  (x : ℚ) / (dstDim : ℚ) * (srcDim : ℚ)

/-- One channel of the bilinear fetch (src/main.cpp lines 193-203); `img` is
the decoded 8-bit raster indexed flat as `(y * origWidth + x) * 3 + ch`. -/
def bilinearSample (img : ℕ → ℕ) (W0 : ℕ) (x0 x1 y0 y1 : ℕ) (fx fy : ℚ) (ch : ℕ) : ℚ :=
  ((img ((y0 * W0 + x0) * 3 + ch) : ℚ) * (1 - fx) * (1 - fy)
    + (img ((y0 * W0 + x1) * 3 + ch) : ℚ) * fx * (1 - fy)
    + (img ((y1 * W0 + x0) * 3 + ch) : ℚ) * (1 - fx) * fy
    + (img ((y1 * W0 + x1) * 3 + ch) : ℚ) * fx * fy) / 255

/-- Integer source coordinate `x0 = (int)srcX` (src/main.cpp lines 185-186);
the C cast truncates toward zero, which on the nonnegative `srcX` arising
here is the floor. -/
def coord0 (x dstDim srcDim : ℕ) : ℕ :=
  (⌊srcCoord x dstDim srcDim⌋).toNat

/-- Second neighbor `x1 = (x0 + 1 < origWidth) ? x0 + 1 : x0`, clamped to
the last valid index at the border (src/main.cpp lines 187-188). -/
def coord1 (x dstDim srcDim : ℕ) : ℕ :=
  if coord0 x dstDim srcDim + 1 < srcDim then coord0 x dstDim srcDim + 1
  else coord0 x dstDim srcDim

/-- Fractional part `fx = srcX - x0` (src/main.cpp lines 190-191). -/
def coordFrac (x dstDim srcDim : ℕ) : ℚ :=
  srcCoord x dstDim srcDim - (coord0 x dstDim srcDim : ℚ)

/-- Bilinear resample of one target cell before the brightness threshold
(src/main.cpp lines 180-203). -/
def resampleTriple (img : ℕ → ℕ) (W0 H0 W1 H1 sx sy : ℕ) : ℚ × ℚ × ℚ :=
  (bilinearSample img W0 (coord0 sx W1 W0) (coord1 sx W1 W0)
      (coord0 sy H1 H0) (coord1 sy H1 H0) (coordFrac sx W1 W0) (coordFrac sy H1 H0) 0,
   bilinearSample img W0 (coord0 sx W1 W0) (coord1 sx W1 W0)
      (coord0 sy H1 H0) (coord1 sy H1 H0) (coordFrac sx W1 W0) (coordFrac sy H1 H0) 1,
   bilinearSample img W0 (coord0 sx W1 W0) (coord1 sx W1 W0)
      (coord0 sy H1 H0) (coord1 sy H1 H0) (coordFrac sx W1 W0) (coordFrac sy H1 H0) 2)

/-- Luma of a triple (src/main.cpp line 207). -/
def lumaOf (rgb : ℚ × ℚ × ℚ) : ℚ :=
  299 / 1000 * rgb.1 + 587 / 1000 * rgb.2.1 + 114 / 1000 * rgb.2.2

/-- Brightness threshold applied to a resampled triple (src/main.cpp lines
205-211); the source only tests it when `g_threshold > 0`. -/
def applyThreshold (threshold : ℕ) (rgb : ℚ × ℚ × ℚ) : ℚ × ℚ × ℚ :=
  if 0 < threshold then
    if lumaOf rgb < (threshold : ℚ) / 255 then (0, 0, 0) else rgb
  else rgb

/-- Full resampler output for one target cell. -/
def resampleCell (img : ℕ → ℕ) (W0 H0 W1 H1 threshold sx sy : ℕ) : ℚ × ℚ × ℚ :=
  applyThreshold threshold (resampleTriple img W0 H0 W1 H1 sx sy)

/-- C1. For every cell probability `prob = orangeProbOf distBlack distAccent`
(0.5 under the degenerate guard), the classifier assigns exactly one state:
black iff prob < 0.3, accent iff prob > 0.7, uncertain iff 0.3 ≤ prob ≤ 0.7;
in particular the boundary probabilities 0.3 (reached at distances 3 and 7)
and 0.7 (distances 7 and 3) are themselves classified uncertain. -/
theorem classifier_partition_exact :
    (∀ distBlack distOrange : ℚ,
      (classifyProb (orangeProbOf distBlack distOrange) = .black ↔
        orangeProbOf distBlack distOrange < 3 / 10) ∧
      (classifyProb (orangeProbOf distBlack distOrange) = .orange ↔
        7 / 10 < orangeProbOf distBlack distOrange) ∧
      (classifyProb (orangeProbOf distBlack distOrange) = .ambiguous ↔
        3 / 10 ≤ orangeProbOf distBlack distOrange ∧
          orangeProbOf distBlack distOrange ≤ 7 / 10)) ∧
    classifyProb (orangeProbOf 3 7) = .ambiguous ∧
    classifyProb (orangeProbOf 7 3) = .ambiguous := by
  refine ⟨fun dB dO => ?_, by norm_num [orangeProbOf, classifyProb],
    by norm_num [orangeProbOf, classifyProb]⟩
  set p := orangeProbOf dB dO with hp
  unfold classifyProb
  split_ifs with h1 h2 <;> refine ⟨?_, ?_, ?_⟩ <;> (simp_all; try linarith)

/-- C8. Classification is total: the probability defaults to 0.5 when the
distance sum is below 0.001, and equals distBlack/(distBlack+distAccent)
otherwise; for distances actually arising from a color triple the sum is
always above 0.001 (indeed above 1/√2), so the ratio branch is the one taken
for every real input and no error can surface. -/
theorem classifier_never_fails :
    (∀ distBlack distOrange : ℚ, distBlack + distOrange < 1 / 1000 →
      orangeProbOf distBlack distOrange = 1 / 2) ∧
    (∀ r g b distBlack distOrange : ℚ, 0 ≤ distBlack → 0 ≤ distOrange →
      distBlack ^ 2 = r ^ 2 + g ^ 2 + b ^ 2 →
      distOrange ^ 2 = (r - 1) ^ 2 + (g - 549 / 1000) ^ 2 + b ^ 2 →
      orangeProbOf distBlack distOrange = distBlack / (distBlack + distOrange)) := by
  constructor
  · intro dB dO h
    unfold orangeProbOf
    rw [if_neg]
    linarith
  · intro r g b dB dO hB hO hB2 hO2
    have hsum : dB + dO > 1 / 1000 := by
      nlinarith [sq_nonneg (r - 1 / 2), sq_nonneg g, sq_nonneg b,
        sq_nonneg (g - 549 / 1000), mul_nonneg hB hO, sq_nonneg (dB + dO)]
    unfold orangeProbOf
    rw [if_pos hsum]

/-- Witness for classifier_never_fails: the triple (1, 0.549, 650.7) has
exact rational distance 650.701 to black and 650.7 to the accent color. -/
theorem classifier_never_fails_witness :
    orangeProbOf (650701 / 1000) (6507 / 10) =
      (650701 / 1000) / (650701 / 1000 + 6507 / 10) :=
  classifier_never_fails.2 1 (549 / 1000) (6507 / 10) (650701 / 1000) (6507 / 10)
    (by norm_num) (by norm_num) (by norm_num) (by norm_num)

/-- RNG state whose advanced value 0xFFFF has all low 16 bits set, obtained
by inverting the three xorshift steps from 65535. -/
def oneDrawState : ℕ := 4189201128

/-- C10. For every RNG state, fastRandFloat returns
(fastRand s & 0xFFFF) / 65535 — a value k/65535 with k ≤ 65535 — while the
returned state is the advanced one; the range is the closed interval [0,1],
and the state 4189201128, which advances to 0xFFFF, returns exactly 1. -/
theorem fastRandFloat_closed_range :
    (∀ s : ℕ,
      fastRandFloatS s = (((fastRand s &&& 65535 : ℕ) : ℚ) / 65535, fastRand s) ∧
      (∃ k : ℕ, k ≤ 65535 ∧ (fastRandFloatS s).1 = (k : ℚ) / 65535) ∧
      0 ≤ (fastRandFloatS s).1 ∧ (fastRandFloatS s).1 ≤ 1) ∧
    (fastRandFloatS oneDrawState).1 = 1 := by
  constructor
  · intro s
    have hk : fastRand s &&& 65535 ≤ 65535 := Nat.and_le_right
    have hkq : ((fastRand s &&& 65535 : ℕ) : ℚ) ≤ 65535 := by exact_mod_cast hk
    refine ⟨rfl, ⟨fastRand s &&& 65535, hk, rfl⟩, ?_, ?_⟩
    · have : (fastRandFloatS s).1 = ((fastRand s &&& 65535 : ℕ) : ℚ) / 65535 := rfl
      rw [this]
      positivity
    · have : (fastRandFloatS s).1 = ((fastRand s &&& 65535 : ℕ) : ℚ) / 65535 := rfl
      rw [this, div_le_one (by norm_num : (0 : ℚ) < 65535)]
      exact hkq
  · have h1 : fastRand oneDrawState = 65535 := by decide
    have h2 : (fastRandFloatS oneDrawState).1
        = ((fastRand oneDrawState &&& 65535 : ℕ) : ℚ) / 65535 := rfl
    rw [h2, h1]
    norm_num

/-- Counterexample to C3 as stated: at RNG state 4189201128 the drawn value
is exactly 65535/65535 = 1, so a cell with storedProbability 1 is decided
Black, not Accent. -/
theorem random_prob_one_black_draw : (randomStep oneDrawState 1).1 = false := by
  have h1 : fastRand oneDrawState = 65535 := by decide
  have h2 : (randomStep oneDrawState 1).1
      = decide (((fastRand oneDrawState &&& 65535 : ℕ) : ℚ) / 65535 < 1) := rfl
  rw [h2, h1, decide_eq_false_iff_not]
  norm_num

/-- C3 amended. The random strategy draws u = (fastRand s & 0xFFFF)/65535,
a value in the closed interval [0,1], and decides Accent iff
u < storedProbability; storedProbability 0 always yields Black, and
storedProbability 1 yields Accent for exactly those states whose advanced
value does not have all low 16 bits set (a draw of exactly 1 yields Black). -/
theorem random_strategy_decision :
    ∀ s : ℕ,
      (∀ p : ℚ, randomStep s p
        = (decide (((fastRand s &&& 65535 : ℕ) : ℚ) / 65535 < p), fastRand s)) ∧
      0 ≤ ((fastRand s &&& 65535 : ℕ) : ℚ) / 65535 ∧
      ((fastRand s &&& 65535 : ℕ) : ℚ) / 65535 ≤ 1 ∧
      (randomStep s 0).1 = false ∧
      ((randomStep s 1).1 = true ↔ fastRand s &&& 65535 ≠ 65535) := by
  intro s
  have hk : fastRand s &&& 65535 ≤ 65535 := Nat.and_le_right
  have hkq : ((fastRand s &&& 65535 : ℕ) : ℚ) ≤ 65535 := by exact_mod_cast hk
  have hnn : (0 : ℚ) ≤ ((fastRand s &&& 65535 : ℕ) : ℚ) / 65535 := by positivity
  refine ⟨fun p => rfl, hnn, ?_, ?_, ?_⟩
  · rw [div_le_one (by norm_num : (0 : ℚ) < 65535)]
    exact hkq
  · have h0 : (randomStep s 0).1
        = decide (((fastRand s &&& 65535 : ℕ) : ℚ) / 65535 < 0) := rfl
    rw [h0, decide_eq_false_iff_not]
    exact not_lt.2 hnn
  · have h1 : (randomStep s 1).1
        = decide (((fastRand s &&& 65535 : ℕ) : ℚ) / 65535 < 1) := rfl
    rw [h1]
    simp only [decide_eq_true_eq]
    rw [div_lt_one (by norm_num : (0 : ℚ) < 65535),
      show (65535 : ℚ) = ((65535 : ℕ) : ℚ) by norm_num, Nat.cast_lt]
    omega

/-- C4. The static strategy is a complete no-op: after any number N ≥ 0 of
dither frames the whole engine — in particular the output buffer, byte for
byte — equals the state immediately after classification. -/
theorem static_strategy_noop :
    ∀ (sinA : ℚ → ℚ) (chaos : ℕ) (e : Engine) (N : ℕ),
      (ditherFrame sinA 0 chaos)^[N] e = e ∧
      ((ditherFrame sinA 0 chaos)^[N] e).scaledPixels = e.scaledPixels ∧
      (∀ (W H : ℕ) (prob : ℕ → ℚ),
        ((ditherFrame sinA 0 chaos)^[N] (initEngine W H prob)).scaledPixels
          = initBuffer (buildStates W H prob)) := by
  intro sinA chaos e N
  have h : ∀ e' : Engine, ditherFrame sinA 0 chaos e' = e' := fun e' => by
    simp [ditherFrame]
  have h2 := Function.iterate_fixed (h e) N
  refine ⟨h2, by rw [h2], fun W H prob => ?_⟩
  rw [Function.iterate_fixed (h (initEngine W H prob)) N]
  rfl

/-- Constant-zero sine used to instantiate the model at concrete inputs. -/
def sinZero : ℚ → ℚ := fun _ => 0

/-- Concrete 1×1 engine whose single cell is uncertain with probability 1/2. -/
def engineEx : Engine := initEngine 1 1 fun _ => 1 / 2

/-- Counterexample to C7 as stated: a static-strategy frame does not advance
the AnimationClock — on engineEx the clock stays 0 instead of becoming
0.016, because ditherFrame returns before the increment. -/
theorem static_frame_clock_frozen :
    (ditherFrame sinZero 0 0 engineEx).time ≠ engineEx.time + 16 / 1000 := by
  have h1 : (ditherFrame sinZero 0 0 engineEx).time = 0 := rfl
  have h2 : engineEx.time = 0 := rfl
  rw [h1, h2]
  norm_num

/-- C7 amended. A random- or wave-strategy frame advances the AnimationClock
by exactly 0.016, independent of wall-clock time; a static frame returns
with the whole engine, clock included, unchanged; consequently the clock
never decreases across frames of any strategy. -/
theorem clock_advance :
    ∀ (sinA : ℚ → ℚ) (alg chaos : ℕ) (e : Engine),
      (alg = 1 ∨ alg = 2 → (ditherFrame sinA alg chaos e).time = e.time + 16 / 1000) ∧
      (alg = 0 → ditherFrame sinA alg chaos e = e) ∧
      e.time ≤ (ditherFrame sinA alg chaos e).time := by
  intro sinA alg chaos e
  by_cases h : alg = 0
  · subst h
    have he2 : ditherFrame sinA 0 chaos e = e := by simp [ditherFrame]
    refine ⟨?_, fun _ => he2, by rw [he2]⟩
    rintro (h1 | h1) <;> exact absurd h1 (by decide)
  · have ht : (ditherFrame sinA alg chaos e).time = e.time + 16 / 1000 := by
      rw [ditherFrame, if_neg h]
    exact ⟨fun _ => ht, fun h0 => absurd h0 h, by rw [ht]; linarith⟩

/-- Witness for clock_advance: one random-strategy frame on engineEx
advances the clock from 0 to 0.016. -/
theorem clock_advance_witness :
    (ditherFrame sinZero 1 0 engineEx).time = engineEx.time + 16 / 1000 :=
  (clock_advance sinZero 1 0 engineEx).1 (Or.inl rfl)

/-- Scan order of the classification loops is exactly 0, 1, ..., W*H - 1. -/
theorem scanOrder_eq_range (W H : ℕ) : scanOrder W H = List.range (W * H) := by
  induction H with
  | zero => simp [scanOrder]
  | succ n ih =>
    have hstep : scanOrder W (n + 1)
        = scanOrder W n ++ (List.range W).map fun x => n * W + x := by
      rw [scanOrder, scanOrder, List.range_succ, List.flatMap_append]
      simp
    rw [hstep, ih, show W * (n + 1) = W * n + W from by ring, List.range_add]
    rw [Nat.mul_comm n W]

/-- UncertainIndexList as a filter of the full row-major index range. -/
theorem buildAmbiguous_eq_filter (W H : ℕ) (prob : ℕ → ℚ) :
    buildAmbiguous W H prob
      = (List.range (W * H)).filter fun i => classifyProb (prob i) = .ambiguous := by
  rw [buildAmbiguous, scanOrder_eq_range]

/-- Membership in the UncertainIndexList is exactly being an in-range cell
classified ambiguous. -/
theorem mem_buildAmbiguous (W H : ℕ) (prob : ℕ → ℚ) (i : ℕ) :
    i ∈ buildAmbiguous W H prob ↔ i < W * H ∧ classifyProb (prob i) = .ambiguous := by
  rw [buildAmbiguous_eq_filter, List.mem_filter, List.mem_range]
  simp

/-- The UncertainIndexList is strictly increasing. -/
theorem buildAmbiguous_sorted (W H : ℕ) (prob : ℕ → ℚ) :
    List.Sorted (· < ·) (buildAmbiguous W H prob) := by
  rw [buildAmbiguous_eq_filter]
  exact (List.pairwise_lt_range _).filter _

/-- The state array holds the classification of each in-range cell. -/
theorem buildStates_getElem? (W H : ℕ) (prob : ℕ → ℚ) (i : ℕ) (h : i < W * H) :
    (buildStates W H prob)[i]? = some (classifyProb (prob i)) := by
  rw [buildStates, scanOrder_eq_range, List.getElem?_map, List.getElem?_range h]
  rfl

/-- A dither frame never touches the classification arrays, the index list
or the grid dimensions. -/
theorem ditherFrame_fixed_fields (sinA : ℚ → ℚ) (alg chaos : ℕ) (e : Engine) :
    (ditherFrame sinA alg chaos e).scaledWidth = e.scaledWidth ∧
    (ditherFrame sinA alg chaos e).scaledHeight = e.scaledHeight ∧
    (ditherFrame sinA alg chaos e).pixelStates = e.pixelStates ∧
    (ditherFrame sinA alg chaos e).orangeProb = e.orangeProb ∧
    (ditherFrame sinA alg chaos e).ambiguousIndices = e.ambiguousIndices := by
  rw [ditherFrame]
  split <;> exact ⟨rfl, rfl, rfl, rfl, rfl⟩

/-- Iterated frames never touch the index list. -/
theorem iterate_ambiguousIndices (sinA : ℚ → ℚ) (alg chaos : ℕ) (e : Engine) (N : ℕ) :
    ((ditherFrame sinA alg chaos)^[N] e).ambiguousIndices = e.ambiguousIndices := by
  induction N with
  | zero => rfl
  | succ n ih =>
    rw [Function.iterate_succ_apply', (ditherFrame_fixed_fields sinA alg chaos _).2.2.2.2, ih]

/-- C9. The UncertainIndexList contains exactly the row-major indices of the
cells classified uncertain (membership iff in range and ambiguous, with the
state array holding exactly the classification of each cell), it is strictly
increasing because it is appended in row-major scan order, and no dither
frame — hence no iteration of frames — ever changes it after construction. -/
theorem uncertain_index_list_exact :
    ∀ (W H : ℕ) (prob : ℕ → ℚ),
      (∀ i : ℕ, i ∈ buildAmbiguous W H prob ↔
        i < W * H ∧ classifyProb (prob i) = .ambiguous) ∧
      List.Sorted (· < ·) (buildAmbiguous W H prob) ∧
      (∀ i : ℕ, i < W * H →
        (buildStates W H prob)[i]? = some (classifyProb (prob i))) ∧
      (∀ (sinA : ℚ → ℚ) (alg chaos N : ℕ),
        ((ditherFrame sinA alg chaos)^[N] (initEngine W H prob)).ambiguousIndices
          = buildAmbiguous W H prob) := by
  intro W H prob
  refine ⟨mem_buildAmbiguous W H prob, buildAmbiguous_sorted W H prob,
    fun i h => buildStates_getElem? W H prob i h, fun sinA alg chaos N => ?_⟩
  rw [iterate_ambiguousIndices]
  rfl

/-- Witness for uncertain_index_list_exact on a concrete 2×2 grid with
constant probability 1/2: cell 1 is in range and its recorded state is the
classification of 1/2. -/
theorem uncertain_index_list_exact_witness :
    1 < 2 * 2 ∧ (buildStates 2 2 fun _ => 1 / 2)[1]? = some (classifyProb (1 / 2)) :=
  ⟨by norm_num, (uncertain_index_list_exact 2 2 fun _ => 1 / 2).2.2.1 1 (by norm_num)⟩

/-- Every per-cell step writes exactly one slot, the cell's own, with one of
the two decision colors. -/
theorem ditherCell_buf (sinA : ℚ → ℚ) (alg chaos W : ℕ) (t : ℚ) (probs : List ℚ)
    (acc : FrameAcc) (j : ℕ) :
    ∃ o : Bool, (ditherCell sinA alg chaos W t probs acc j).buf
      = acc.buf.set j (cellColor o) := by
  simp only [ditherCell]
  split
  · exact ⟨_, rfl⟩
  · split <;> split <;> exact ⟨_, rfl⟩

/-- A frame's fold preserves the buffer length. -/
theorem foldl_dither_length (sinA : ℚ → ℚ) (alg chaos W : ℕ) (t : ℚ) (probs : List ℚ)
    (idxs : List ℕ) (acc : FrameAcc) :
    (idxs.foldl (ditherCell sinA alg chaos W t probs) acc).buf.length
      = acc.buf.length := by
  induction idxs generalizing acc with
  | nil => rfl
  | cons j rest ih =>
    rw [List.foldl_cons, ih]
    obtain ⟨o, ho⟩ := ditherCell_buf sinA alg chaos W t probs acc j
    rw [ho, List.length_set]

/-- A frame's fold leaves every slot whose index is not in the processed
list untouched. -/
theorem foldl_dither_not_mem (sinA : ℚ → ℚ) (alg chaos W : ℕ) (t : ℚ) (probs : List ℚ)
    (idxs : List ℕ) (acc : FrameAcc) (i : ℕ) (h : i ∉ idxs) :
    (idxs.foldl (ditherCell sinA alg chaos W t probs) acc).buf[i]? = acc.buf[i]? := by
  induction idxs generalizing acc with
  | nil => rfl
  | cons j rest ih =>
    have hij : i ≠ j ∧ i ∉ rest := by simpa [not_or] using h
    rw [List.foldl_cons, ih _ hij.2]
    obtain ⟨o, ho⟩ := ditherCell_buf sinA alg chaos W t probs acc j
    rw [ho, List.getElem?_set_ne (Ne.symm hij.1)]

/-- After a frame's fold every slot is unchanged or holds one of the two
fixed decision colors. -/
theorem foldl_dither_two_color (sinA : ℚ → ℚ) (alg chaos W : ℕ) (t : ℚ) (probs : List ℚ)
    (idxs : List ℕ) (acc : FrameAcc) (i : ℕ) :
    (idxs.foldl (ditherCell sinA alg chaos W t probs) acc).buf[i]? = acc.buf[i]? ∨
    (idxs.foldl (ditherCell sinA alg chaos W t probs) acc).buf[i]? = some BLACK_RGBA ∨
    (idxs.foldl (ditherCell sinA alg chaos W t probs) acc).buf[i]? = some ORANGE_RGBA := by
  induction idxs generalizing acc with
  | nil => exact Or.inl rfl
  | cons j rest ih =>
    rw [List.foldl_cons]
    rcases ih (ditherCell sinA alg chaos W t probs acc j) with h | h | h
    · obtain ⟨o, ho⟩ := ditherCell_buf sinA alg chaos W t probs acc j
      rw [h, ho, List.getElem?_set]
      split_ifs with hji hlen
      · cases o
        · exact Or.inr (Or.inl rfl)
        · exact Or.inr (Or.inr rfl)
      · subst hji
        exact Or.inl (List.getElem?_eq_none (Nat.le_of_not_lt hlen)).symm
      · exact Or.inl rfl
    · exact Or.inr (Or.inl h)
    · exact Or.inr (Or.inr h)

/-- Invariant of the output buffer relative to the classification: correct
length, fixed color at every non-ambiguous cell, and one of the two fixed
colors everywhere. -/
def BufferInv (W H : ℕ) (prob : ℕ → ℚ) (buf : List RGBA) : Prop :=
  buf.length = W * H ∧
  ∀ i : ℕ, i < W * H →
    (classifyProb (prob i) ≠ .ambiguous →
      buf[i]? = some (stateColor (classifyProb (prob i)))) ∧
    (buf[i]? = some BLACK_RGBA ∨ buf[i]? = some ORANGE_RGBA)

/-- The buffer written at classification time satisfies the invariant. -/
theorem bufferInv_init (W H : ℕ) (prob : ℕ → ℚ) :
    BufferInv W H prob (initBuffer (buildStates W H prob)) := by
  constructor
  · rw [initBuffer, buildStates, scanOrder_eq_range]
    simp
  · intro i hi
    have hget : (initBuffer (buildStates W H prob))[i]?
        = some (stateColor (classifyProb (prob i))) := by
      rw [initBuffer, List.getElem?_map, buildStates_getElem? W H prob i hi]
      rfl
    refine ⟨fun _ => hget, ?_⟩
    rw [hget]
    unfold stateColor
    split_ifs
    · exact Or.inl rfl
    · exact Or.inr rfl

/-- One dither frame preserves the buffer invariant, for any strategy. -/
theorem bufferInv_frame (W H : ℕ) (prob : ℕ → ℚ) (sinA : ℚ → ℚ) (alg chaos : ℕ)
    (e : Engine) (hidx : e.ambiguousIndices = buildAmbiguous W H prob)
    (hinv : BufferInv W H prob e.scaledPixels) :
    BufferInv W H prob (ditherFrame sinA alg chaos e).scaledPixels := by
  by_cases h0 : alg = 0
  · subst h0
    simpa [ditherFrame] using hinv
  · have hbuf : (ditherFrame sinA alg chaos e).scaledPixels
        = (e.ambiguousIndices.foldl
            (ditherCell sinA alg chaos e.scaledWidth e.time e.orangeProb)
            ⟨e.scaledPixels, e.rngState, e.cache⟩).buf := by
      rw [ditherFrame, if_neg h0]
    constructor
    · rw [hbuf, foldl_dither_length]
      exact hinv.1
    · intro i hi
      constructor
      · intro hamb
        have hnotmem : i ∉ e.ambiguousIndices := fun hm =>
          hamb (((mem_buildAmbiguous W H prob i).1 (hidx ▸ hm)).2)
        rw [hbuf, foldl_dither_not_mem _ _ _ _ _ _ _ _ _ hnotmem]
        exact (hinv.2 i hi).1 hamb
      · rcases foldl_dither_two_color sinA alg chaos e.scaledWidth e.time e.orangeProb
            e.ambiguousIndices ⟨e.scaledPixels, e.rngState, e.cache⟩ i with h | h | h
        · rw [hbuf, h]
          exact (hinv.2 i hi).2
        · rw [hbuf]
          exact Or.inl h
        · rw [hbuf]
          exact Or.inr h

/-- C5. From initialization onward, under any strategy and any number of
frames, every cell classified black or accent still holds its fixed RGBA
color (no frame ever writes a non-uncertain cell's slot, which keeps its
initialization value), and every cell's slot holds one of the two fixed
RGBA constants. -/
theorem buffer_fixed_colors :
    ∀ (W H : ℕ) (prob : ℕ → ℚ) (sinA : ℚ → ℚ) (alg chaos N i : ℕ),
      i < W * H →
      (classifyProb (prob i) ≠ .ambiguous →
        ((ditherFrame sinA alg chaos)^[N] (initEngine W H prob)).scaledPixels[i]?
          = some (stateColor (classifyProb (prob i)))) ∧
      (((ditherFrame sinA alg chaos)^[N] (initEngine W H prob)).scaledPixels[i]?
          = some BLACK_RGBA ∨
        ((ditherFrame sinA alg chaos)^[N] (initEngine W H prob)).scaledPixels[i]?
          = some ORANGE_RGBA) := by
  intro W H prob sinA alg chaos N i hi
  have key : ∀ M : ℕ,
      BufferInv W H prob
        (((ditherFrame sinA alg chaos)^[M]) (initEngine W H prob)).scaledPixels := by
    intro M
    induction M with
    | zero => exact bufferInv_init W H prob
    | succ n ihm =>
      rw [Function.iterate_succ_apply']
      refine bufferInv_frame W H prob sinA alg chaos _ ?_ ihm
      rw [iterate_ambiguousIndices]
      rfl
  exact (key N).2 i hi

/-- Witness for buffer_fixed_colors: the single uncertain cell of the 1×1
grid holds one of the two fixed colors after one wave frame. -/
theorem buffer_fixed_colors_witness :
    0 < 1 * 1 ∧
    (((ditherFrame sinZero 2 0)^[1] (initEngine 1 1 fun _ => 1 / 2)).scaledPixels[0]?
        = some BLACK_RGBA ∨
      ((ditherFrame sinZero 2 0)^[1] (initEngine 1 1 fun _ => 1 / 2)).scaledPixels[0]?
        = some ORANGE_RGBA) :=
  ⟨by norm_num,
    (buffer_fixed_colors 1 1 (fun _ => 1 / 2) sinZero 2 0 1 0 (by norm_num)).2⟩

/-- Source coordinates are nonnegative, all factors being casts of ℕ. -/
theorem srcCoord_nonneg (x d s : ℕ) : 0 ≤ srcCoord x d s := by
  unfold srcCoord
  positivity

/-- The fractional part of a source coordinate lies in [0, 1). -/
theorem coordFrac_bounds (x d s : ℕ) :
    0 ≤ coordFrac x d s ∧ coordFrac x d s < 1 := by
  have hq : 0 ≤ srcCoord x d s := srcCoord_nonneg x d s
  have h1 : ((⌊srcCoord x d s⌋.toNat : ℤ) : ℚ) = ((⌊srcCoord x d s⌋ : ℤ) : ℚ) := by
    exact_mod_cast congrArg (fun z : ℤ => (z : ℚ))
      (Int.toNat_of_nonneg (Int.floor_nonneg.2 hq))
  have h2 : ((⌊srcCoord x d s⌋.toNat : ℕ) : ℚ) = ((⌊srcCoord x d s⌋ : ℤ) : ℚ) := by
    exact_mod_cast h1
  unfold coordFrac coord0
  rw [h2]
  constructor
  · linarith [Int.floor_le (srcCoord x d s)]
  · linarith [Int.lt_floor_add_one (srcCoord x d s)]

/-- The bilinear blend of four 8-bit texels with weights built from
fractions in [0,1] lies in [0,1]. -/
theorem bilinearSample_bounds (img : ℕ → ℕ) (W0 : ℕ) (x0 x1 y0 y1 : ℕ)
    (fx fy : ℚ) (ch : ℕ) (himg : ∀ i, img i ≤ 255)
    (hfx0 : 0 ≤ fx) (hfx1 : fx ≤ 1) (hfy0 : 0 ≤ fy) (hfy1 : fy ≤ 1) :
    0 ≤ bilinearSample img W0 x0 x1 y0 y1 fx fy ch ∧
    bilinearSample img W0 x0 x1 y0 y1 fx fy ch ≤ 1 := by
  have c00 : (0 : ℚ) ≤ (img ((y0 * W0 + x0) * 3 + ch) : ℚ) := by positivity
  have c01 : (0 : ℚ) ≤ (img ((y0 * W0 + x1) * 3 + ch) : ℚ) := by positivity
  have c10 : (0 : ℚ) ≤ (img ((y1 * W0 + x0) * 3 + ch) : ℚ) := by positivity
  have c11 : (0 : ℚ) ≤ (img ((y1 * W0 + x1) * 3 + ch) : ℚ) := by positivity
  have d00 : ((img ((y0 * W0 + x0) * 3 + ch) : ℕ) : ℚ) ≤ 255 := by
    exact_mod_cast himg ((y0 * W0 + x0) * 3 + ch)
  have d01 : ((img ((y0 * W0 + x1) * 3 + ch) : ℕ) : ℚ) ≤ 255 := by
    exact_mod_cast himg ((y0 * W0 + x1) * 3 + ch)
  have d10 : ((img ((y1 * W0 + x0) * 3 + ch) : ℕ) : ℚ) ≤ 255 := by
    exact_mod_cast himg ((y1 * W0 + x0) * 3 + ch)
  have d11 : ((img ((y1 * W0 + x1) * 3 + ch) : ℕ) : ℚ) ≤ 255 := by
    exact_mod_cast himg ((y1 * W0 + x1) * 3 + ch)
  have w1 : (0 : ℚ) ≤ (1 - fx) * (1 - fy) := mul_nonneg (by linarith) (by linarith)
  have w2 : (0 : ℚ) ≤ fx * (1 - fy) := mul_nonneg hfx0 (by linarith)
  have w3 : (0 : ℚ) ≤ (1 - fx) * fy := mul_nonneg (by linarith) hfy0
  have w4 : (0 : ℚ) ≤ fx * fy := mul_nonneg hfx0 hfy0
  unfold bilinearSample
  constructor
  · apply div_nonneg _ (by norm_num : (0 : ℚ) ≤ 255)
    nlinarith [mul_nonneg c00 w1, mul_nonneg c01 w2, mul_nonneg c10 w3, mul_nonneg c11 w4]
  · rw [div_le_one (by norm_num : (0 : ℚ) < 255)]
    nlinarith [mul_le_mul_of_nonneg_right d00 w1, mul_le_mul_of_nonneg_right d01 w2,
      mul_le_mul_of_nonneg_right d10 w3, mul_le_mul_of_nonneg_right d11 w4]

/-- Every component of the pre-threshold resampled triple lies in [0,1]. -/
theorem resampleTriple_bounds (img : ℕ → ℕ) (W0 H0 W1 H1 sx sy : ℕ)
    (himg : ∀ i, img i ≤ 255) :
    (0 ≤ (resampleTriple img W0 H0 W1 H1 sx sy).1 ∧
      (resampleTriple img W0 H0 W1 H1 sx sy).1 ≤ 1) ∧
    (0 ≤ (resampleTriple img W0 H0 W1 H1 sx sy).2.1 ∧
      (resampleTriple img W0 H0 W1 H1 sx sy).2.1 ≤ 1) ∧
    (0 ≤ (resampleTriple img W0 H0 W1 H1 sx sy).2.2 ∧
      (resampleTriple img W0 H0 W1 H1 sx sy).2.2 ≤ 1) := by
  have hfx := coordFrac_bounds sx W1 W0
  have hfy := coordFrac_bounds sy H1 H0
  exact ⟨bilinearSample_bounds img W0 _ _ _ _ _ _ 0 himg hfx.1 (le_of_lt hfx.2)
      hfy.1 (le_of_lt hfy.2),
    bilinearSample_bounds img W0 _ _ _ _ _ _ 1 himg hfx.1 (le_of_lt hfx.2)
      hfy.1 (le_of_lt hfy.2),
    bilinearSample_bounds img W0 _ _ _ _ _ _ 2 himg hfx.1 (le_of_lt hfx.2)
      hfy.1 (le_of_lt hfy.2)⟩

/-- Luma of a componentwise-nonnegative triple is nonnegative. -/
theorem lumaOf_nonneg (rgb : ℚ × ℚ × ℚ) (h1 : 0 ≤ rgb.1) (h2 : 0 ≤ rgb.2.1)
    (h3 : 0 ≤ rgb.2.2) : 0 ≤ lumaOf rgb := by
  unfold lumaOf
  nlinarith

/-- C6. The resampler maps the target cell (sx, sy) to the fractional source
coordinates sx/W1*W0 and sy/H1*H0, bilinearly blends the four neighboring
texels (with the +1 neighbor clamped to the last valid index at the image
border, coord1's definition), forces the triple to (0,0,0) exactly when the
blend's luma 0.299R+0.587G+0.114B is below threshold/255 — the source's
extra `g_threshold > 0` guard is redundant because the luma is never
negative — and otherwise returns the blend unchanged; every component of
the result lies in [0,1]. -/
theorem resampler_exact :
    ∀ (img : ℕ → ℕ) (W0 H0 W1 H1 threshold sx sy : ℕ),
      (∀ i : ℕ, img i ≤ 255) →
      (srcCoord sx W1 W0 = (sx : ℚ) / (W1 : ℚ) * (W0 : ℚ) ∧
        srcCoord sy H1 H0 = (sy : ℚ) / (H1 : ℚ) * (H0 : ℚ)) ∧
      (lumaOf (resampleTriple img W0 H0 W1 H1 sx sy) < (threshold : ℚ) / 255 →
        resampleCell img W0 H0 W1 H1 threshold sx sy = (0, 0, 0)) ∧
      (¬ lumaOf (resampleTriple img W0 H0 W1 H1 sx sy) < (threshold : ℚ) / 255 →
        resampleCell img W0 H0 W1 H1 threshold sx sy
          = resampleTriple img W0 H0 W1 H1 sx sy) ∧
      (0 ≤ (resampleCell img W0 H0 W1 H1 threshold sx sy).1 ∧
        (resampleCell img W0 H0 W1 H1 threshold sx sy).1 ≤ 1 ∧
        0 ≤ (resampleCell img W0 H0 W1 H1 threshold sx sy).2.1 ∧
        (resampleCell img W0 H0 W1 H1 threshold sx sy).2.1 ≤ 1 ∧
        0 ≤ (resampleCell img W0 H0 W1 H1 threshold sx sy).2.2 ∧
        (resampleCell img W0 H0 W1 H1 threshold sx sy).2.2 ≤ 1) := by
  intro img W0 H0 W1 H1 threshold sx sy himg
  have hb := resampleTriple_bounds img W0 H0 W1 H1 sx sy himg
  have hluma := lumaOf_nonneg (resampleTriple img W0 H0 W1 H1 sx sy)
    hb.1.1 hb.2.1.1 hb.2.2.1
  have hforce : lumaOf (resampleTriple img W0 H0 W1 H1 sx sy) < (threshold : ℚ) / 255 →
      resampleCell img W0 H0 W1 H1 threshold sx sy = (0, 0, 0) := by
    intro h
    have hpos : 0 < threshold := by
      by_contra hc
      have hz : threshold = 0 := by omega
      rw [hz] at h
      norm_num at h
      linarith
    rw [resampleCell, applyThreshold, if_pos hpos, if_pos h]
  have hkeep : ¬ lumaOf (resampleTriple img W0 H0 W1 H1 sx sy) < (threshold : ℚ) / 255 →
      resampleCell img W0 H0 W1 H1 threshold sx sy
        = resampleTriple img W0 H0 W1 H1 sx sy := by
    intro h
    rw [resampleCell, applyThreshold]
    split_ifs with h1
    · rfl
    · rfl
  refine ⟨⟨rfl, rfl⟩, hforce, hkeep, ?_⟩
  by_cases h : lumaOf (resampleTriple img W0 H0 W1 H1 sx sy) < (threshold : ℚ) / 255
  · rw [hforce h]
    norm_num
  · rw [hkeep h]
    exact ⟨hb.1.1, hb.1.2, hb.2.1.1, hb.2.1.2, hb.2.2.1, hb.2.2.2⟩

/-- Witness for resampler_exact: the constant-128 source raster, a 4×4
source resampled to 2×2 with threshold 40, at target cell (1,1). -/
theorem resampler_exact_witness :
    (∀ i : ℕ, (fun _ : ℕ => 128) i ≤ 255) ∧
    (0 ≤ (resampleCell (fun _ => 128) 4 4 2 2 40 1 1).1 ∧
      (resampleCell (fun _ => 128) 4 4 2 2 40 1 1).1 ≤ 1 ∧
      0 ≤ (resampleCell (fun _ => 128) 4 4 2 2 40 1 1).2.1 ∧
      (resampleCell (fun _ => 128) 4 4 2 2 40 1 1).2.1 ≤ 1 ∧
      0 ≤ (resampleCell (fun _ => 128) 4 4 2 2 40 1 1).2.2 ∧
      (resampleCell (fun _ => 128) 4 4 2 2 40 1 1).2.2 ≤ 1) :=
  ⟨fun _ => by norm_num,
    (resampler_exact (fun _ => 128) 4 4 2 2 40 1 1 fun _ => by norm_num).2.2.2⟩

/-- Constructor disequality used by evaluation. -/
@[simp] theorem black_ne_ambiguous : ¬ (PixelState.black = PixelState.ambiguous) := by
  decide

/-- Constructor disequality used by evaluation. -/
@[simp] theorem orange_ne_ambiguous : ¬ (PixelState.orange = PixelState.ambiguous) := by
  decide

/-- Constructor disequality used by evaluation. -/
@[simp] theorem ambiguous_ne_black : ¬ (PixelState.ambiguous = PixelState.black) := by
  decide

/-- Per-cell probabilities of run A: on the 2×1 grid only cell 1
(column 1, row 0) is uncertain, with stored probability 1/2. -/
def probRowA : ℕ → ℚ := fun i => if i = 1 then 1 / 2 else 0

/-- Per-cell probabilities of run B: on the 2×2 grid cells 1 (column 1,
row 0) and 2 (column 0, row 1) are uncertain, with probability 1/2. -/
def probRowB : ℕ → ℚ := fun i => if i = 1 ∨ i = 2 then 1 / 2 else 0

/-- Step function standing for sine in the staleness exhibit: it
distinguishes the fresh frame-2 phase -0.032 (value -1) from the stale
frame-1 phase 0 (value 1); the real sine likewise takes distinct values at
these two phases. -/
def sinStep : ℚ → ℚ := fun q => if q < 0 then -1 else 1

/-- C2 exhibit: with chaos = 0 the wave decision for the cell at
(x, y) = (1, 0) with stored probability 1/2 evaluated at clock 0.016
(during frame 2) is Black in run A but Accent in run B, although
(x, y, clock, storedProbability) and the grid width are identical in the
two evaluations: run A's frame 2 reuses the sine cached at clock 0, because
the static lastY left over from frame 1 equals the cell's row (its list has
uncertain cells only in row 0), while run B, whose list also has a row-1
cell, recomputes the row-0 sine at the current clock. The decision depends
on the history of previous evaluations, not only on the four claimed
inputs. -/
theorem wave_chaos0_cache_stale :
    ((ditherFrame sinStep 2 0)^[1] (initEngine 2 1 probRowA)).time
        = ((ditherFrame sinStep 2 0)^[1] (initEngine 2 2 probRowB)).time ∧
    ((ditherFrame sinStep 2 0)^[2] (initEngine 2 1 probRowA)).scaledPixels[1]?
        = some BLACK_RGBA ∧
    ((ditherFrame sinStep 2 0)^[2] (initEngine 2 2 probRowB)).scaledPixels[1]?
        = some ORANGE_RGBA := by
  have hA0 : initEngine 2 1 probRowA =
      ⟨2, 1, [.black, .ambiguous], [0, 1 / 2], [1], [BLACK_RGBA, ORANGE_RGBA],
        0, 12345, ⟨-1, 0, 0, 0⟩⟩ := by
    norm_num [initEngine, buildStates, buildProbs, buildAmbiguous, initBuffer,
      scanOrder, probRowA, classifyProb, stateColor, List.range_succ, List.filter_cons]
  have hA1 : ditherFrame sinStep 2 0
      (⟨2, 1, [.black, .ambiguous], [0, 1 / 2], [1], [BLACK_RGBA, ORANGE_RGBA],
        0, 12345, ⟨-1, 0, 0, 0⟩⟩ : Engine) =
      ⟨2, 1, [.black, .ambiguous], [0, 1 / 2], [1], [BLACK_RGBA, BLACK_RGBA],
        2 / 125, 12345, ⟨0, 1, 0, 1⟩⟩ := by
    norm_num [ditherFrame, ditherCell, cellColor, sinStep, List.getD]
  have hA2 : ditherFrame sinStep 2 0
      (⟨2, 1, [.black, .ambiguous], [0, 1 / 2], [1], [BLACK_RGBA, BLACK_RGBA],
        2 / 125, 12345, ⟨0, 1, 0, 1⟩⟩ : Engine) =
      ⟨2, 1, [.black, .ambiguous], [0, 1 / 2], [1], [BLACK_RGBA, BLACK_RGBA],
        4 / 125, 12345, ⟨0, 1, 0, 1⟩⟩ := by
    norm_num [ditherFrame, ditherCell, cellColor, sinStep, List.getD]
  have hB0 : initEngine 2 2 probRowB =
      ⟨2, 2, [.black, .ambiguous, .ambiguous, .black], [0, 1 / 2, 1 / 2, 0],
        [1, 2], [BLACK_RGBA, ORANGE_RGBA, ORANGE_RGBA, BLACK_RGBA],
        0, 12345, ⟨-1, 0, 0, 0⟩⟩ := by
    norm_num [initEngine, buildStates, buildProbs, buildAmbiguous, initBuffer,
      scanOrder, probRowB, classifyProb, stateColor, List.range_succ, List.filter_cons]
  have hB1 : ditherFrame sinStep 2 0
      (⟨2, 2, [.black, .ambiguous, .ambiguous, .black], [0, 1 / 2, 1 / 2, 0],
        [1, 2], [BLACK_RGBA, ORANGE_RGBA, ORANGE_RGBA, BLACK_RGBA],
        0, 12345, ⟨-1, 0, 0, 0⟩⟩ : Engine) =
      ⟨2, 2, [.black, .ambiguous, .ambiguous, .black], [0, 1 / 2, 1 / 2, 0],
        [1, 2], [BLACK_RGBA, BLACK_RGBA, BLACK_RGBA, BLACK_RGBA],
        2 / 125, 12345, ⟨1, 1, 0, 1⟩⟩ := by
    norm_num [ditherFrame, ditherCell, cellColor, sinStep, List.getD]
  have hB2 : ditherFrame sinStep 2 0
      (⟨2, 2, [.black, .ambiguous, .ambiguous, .black], [0, 1 / 2, 1 / 2, 0],
        [1, 2], [BLACK_RGBA, BLACK_RGBA, BLACK_RGBA, BLACK_RGBA],
        2 / 125, 12345, ⟨1, 1, 0, 1⟩⟩ : Engine) =
      ⟨2, 2, [.black, .ambiguous, .ambiguous, .black], [0, 1 / 2, 1 / 2, 0],
        [1, 2], [BLACK_RGBA, ORANGE_RGBA, BLACK_RGBA, BLACK_RGBA],
        4 / 125, 12345, ⟨1, 1, 0, 1⟩⟩ := by
    norm_num [ditherFrame, ditherCell, cellColor, sinStep, List.getD]
  have hit : ∀ e : Engine,
      (ditherFrame sinStep 2 0)^[2] e
        = ditherFrame sinStep 2 0 (ditherFrame sinStep 2 0 e) := fun e => rfl
  have hit1 : ∀ e : Engine,
      (ditherFrame sinStep 2 0)^[1] e = ditherFrame sinStep 2 0 e := fun e => rfl
  refine ⟨?_, ?_, ?_⟩
  · rw [hit1, hit1, hA0, hA1, hB0, hB1]
  · rw [hit, hA0, hA1, hA2]
    rfl
  · rw [hit, hB0, hB1, hB2]
    rfl

end LiveDither
